import Mathlib

/-!
Verification of the SmartQuiz grading core (`quizcore.py`, `quiz_runner.py`).

The Python code is shallowly embedded: dataclasses become structures, Python
ints become `Int`, the float `percentage` becomes `ℚ`, Python dicts keyed by
int become functions `Int → Option (List String)` (with `dict.get(k, [])`
embedded as `(answers k).getD []`), and functions that `raise` return
`Except`.
-/

namespace SmartQuiz

/-- Embeds dataclass `AnswerOption` of `quizcore.py`. -/
structure AnswerOption where
  value : String
  text : String
  description : Option String := none
deriving DecidableEq

/-- Embeds dataclass `Question` of `quizcore.py`. -/
structure Question where
  number : Int
  type : String
  question : String
  options : List AnswerOption
  correct : List String
  points : Int := 1
  case_sensitive : Bool := false
deriving DecidableEq

/-- Embeds dataclass `Exam` of `quizcore.py`. -/
structure Exam where
  id : String
  title : String
  description : String
  questions : List Question
  shuffle_questions : Bool := false
  difficulty : Option String := none
  time_limit_seconds : Option Int := none
  format : String := "multiple"
  block_previous : Bool := false
deriving DecidableEq

/-- Embeds dataclass `QuestionResult` of `quizcore.py`. -/
structure QuestionResult where
  question_number : Int
  is_correct : Bool
  gained_points : Int
  max_points : Int
  user_answer : List String
  correct_answer : List String
deriving DecidableEq

/-- Embeds dataclass `GradeResult` of `quizcore.py`.  The Python float
`percentage` is embedded as a rational. -/
structure GradeResult where
  total_points : Int
  max_points : Int
  percentage : ℚ
  per_question : List QuestionResult
deriving DecidableEq

/-- The three option-bearing question types of `quizcore.py`
(`("true_false", "single", "multiple")`). -/
def choiceTypes : List String := ["true_false", "single", "multiple"]

/-- Embeds `_check_question_answer` of `quizcore.py`.  Python
`set(user_answer) == set(q.correct)` is embedded as equality of the
`toFinset`s; Python `str.strip` / `str.lower` as `String.trim` /
`String.toLower`; Python `x in list` as `List.contains`. -/
def checkQuestionAnswer (q : Question) (user_answer : List String) : Bool :=
  if q.type ∈ choiceTypes then
    decide (user_answer.toFinset = q.correct.toFinset)
  else if q.type = "fill_blank" then
    match user_answer with
    | [] => false
    | ua :: _ =>
      if ¬ q.case_sensitive then
        (q.correct.map (fun c => c.trim.toLower)).contains (ua.trim.toLower)
      else
        (q.correct.map (fun c => c.trim)).contains ua.trim
  else
    false

/-- One `QuestionResult` row of the grading loop body (`grade_exam` lines
158-171 of `quizcore.py`), with the `question_number` field abstracted so the
same row builder also embeds the loop body of `grade_exam_by_index`. -/
def questionRow (q : Question) (ua : List String) (qnum : Int) : QuestionResult :=
  { question_number := qnum
    is_correct := checkQuestionAnswer q ua
    gained_points := if checkQuestionAnswer q ua then q.points else 0
    max_points := q.points
    user_answer := ua
    correct_answer := q.correct }

/-- Assembles a `GradeResult` from the per-question rows: the loop
accumulators `total_points` and `max_points` of `grade_exam` are the sums of
the rows' `gained_points` and `max_points`, and
`percentage = (total_points / max_points * 100) if max_points > 0 else 0.0`. -/
def mkGradeResult (rows : List QuestionResult) : GradeResult :=
  let total := (rows.map (fun r => r.gained_points)).sum
  let maxP := (rows.map (fun r => r.max_points)).sum
  { total_points := total
    max_points := maxP
    percentage := if 0 < maxP then (total : ℚ) / (maxP : ℚ) * 100 else 0
    per_question := rows }

/-- Embeds `grade_exam` of `quizcore.py`.  The dict `user_answers` is a
function `Int → Option (List String)`; `user_answers.get(q.number, [])` is
`(user_answers q.number).getD []`. -/
def gradeExam (exam : Exam) (user_answers : Int → Option (List String)) : GradeResult :=
  mkGradeResult
    (exam.questions.map (fun q => questionRow q ((user_answers q.number).getD []) q.number))

/-! ## C1: set-equality grading for choice types -/

/-- Claim C1: For every question whose type is `true_false`, `single` or
`multiple` and every answer list, `_check_question_answer` returns true iff
the elements of `user_answer` and of `q.correct` form the same set, hence it
ignores order and duplicates, and an empty answer is correct exactly when
`q.correct` is empty. -/
theorem C1_choice_set_equality (q : Question) (ua : List String)
    (h : q.type ∈ choiceTypes) :
    checkQuestionAnswer q ua = true ↔ (∀ x : String, x ∈ ua ↔ x ∈ q.correct) := by
  simp only [checkQuestionAnswer, if_pos h, decide_eq_true_eq]
  rw [Finset.ext_iff]
  simp [List.mem_toFinset]

/-- Witness for C1 at a concrete `multiple` question: `["b","a","a"]`
against `correct = ["a","b"]`. -/
def C1q : Question :=
  { number := 1, type := "multiple", question := "pick"
    options := [{ value := "a", text := "A" }, { value := "b", text := "B" }]
    correct := ["a", "b"] }

theorem C1_choice_set_equality_witness :
    C1q.type ∈ choiceTypes ∧
      (checkQuestionAnswer C1q ["b", "a", "a"] = true ↔
        (∀ x : String, x ∈ ["b", "a", "a"] ↔ x ∈ C1q.correct)) :=
  ⟨by decide, C1_choice_set_equality C1q ["b", "a", "a"] (by decide)⟩

/-! ## C2: fill-blank grading -/

/-- The normalisation `_check_question_answer` applies on both sides of a
`fill_blank` comparison: trim, and additionally lowercase when the question
is not case sensitive. -/
def fbNorm (case_sensitive : Bool) (s : String) : String :=
  if case_sensitive then s.trim else s.trim.toLower

/-- Claim C2: For a `fill_blank` question, the answer is graded correct iff the
answer list has a first element which, after normalisation (trim, plus
lowercasing when not case sensitive), equals some normalised entry of
`q.correct`; in particular an empty answer list is incorrect and only the
first element is ever consulted. -/
theorem C2_fill_blank (q : Question) (ua : List String)
    (h : q.type = "fill_blank") :
    checkQuestionAnswer q ua = true ↔
      (∃ a, ua.head? = some a ∧
        ∃ c ∈ q.correct, fbNorm q.case_sensitive a = fbNorm q.case_sensitive c) := by
  have hnc : q.type ∉ choiceTypes := by
    rw [h]; decide
  simp only [checkQuestionAnswer, if_neg hnc, if_pos h]
  cases ua with
  | nil => simp
  | cons a tl =>
    simp only [List.head?_cons, Option.some.injEq]
    cases hcs : q.case_sensitive with
    | false =>
      simp [fbNorm, List.contains_iff_exists_mem_beq, eq_comm]
    | true =>
      simp [fbNorm, List.contains_iff_exists_mem_beq, eq_comm]

/-- Witness question for C2: the spec's example, `correct = ["paris"]`,
not case sensitive. -/
def C2q : Question :=
  { number := 2, type := "fill_blank", question := "capital?"
    options := [], correct := ["paris"] }

theorem C2_fill_blank_witness :
    C2q.type = "fill_blank" ∧
      (checkQuestionAnswer C2q [" Paris "] = true ↔
        (∃ a, ([" Paris "] : List String).head? = some a ∧
          ∃ c ∈ C2q.correct, fbNorm C2q.case_sensitive a = fbNorm C2q.case_sensitive c)) :=
  ⟨rfl, C2_fill_blank C2q [" Paris "] rfl⟩

/-! ## C9: choice types compare answer strings exactly -/

/-- Claim C9: Choice-type grading applies no trimming and no case folding: for
any `true_false`/`single`/`multiple` question with `correct = ["a"]`, the
answers `[" a "]` and `["A"]` are graded incorrect while `["a"]` is graded
correct. -/
theorem C9_choice_exact_comparison (q : Question)
    (h : q.type ∈ choiceTypes) (hc : q.correct = ["a"]) :
    checkQuestionAnswer q [" a "] = false ∧
      checkQuestionAnswer q ["A"] = false ∧
      checkQuestionAnswer q ["a"] = true := by
  simp only [checkQuestionAnswer, if_pos h, hc]
  refine ⟨?_, ?_, ?_⟩ <;> decide

/-- Witness question for C9: a `single` question with option value `a`. -/
def C9q : Question :=
  { number := 3, type := "single", question := "pick one"
    options := [{ value := "a", text := "A" }], correct := ["a"] }

theorem C9_choice_exact_comparison_witness :
    C9q.type ∈ choiceTypes ∧ C9q.correct = ["a"] ∧
      (checkQuestionAnswer C9q [" a "] = false ∧
        checkQuestionAnswer C9q ["A"] = false ∧
        checkQuestionAnswer C9q ["a"] = true) :=
  ⟨by decide, rfl, C9_choice_exact_comparison C9q (by decide) rfl⟩

/-! ## Validation and loading -/

/-- The load/validation-time failures of `quizcore.py` (`ValueError`s in
`validate_exam` and `load_exam`), named as in the spec's error taxonomy. -/
inductive ValidationError where
  | dupNumber (number : Int)
  | invalidCorrect (question_number : Int) (value : String) (known_values : List String)
  | invalidTimeLimit
deriving DecidableEq

/-- The option values of a question (`{o.value for o in q.options}`;
membership in that set is membership in this list). -/
def optionValues (q : Question) : List String := q.options.map (fun o => o.value)

/-- First entry of `correct` not among the option values, if any (the `for c
in q.correct` loop of `validate_exam` raises at the first offender). -/
def findBadCorrect : List String → List String → Option String
  | [], _ => none
  | c :: rest, vals => if c ∈ vals then findBadCorrect rest vals else some c

/-- The correct-membership check of `validate_exam` for one question:
only option-bearing types are checked, `fill_blank` (and anything else)
is exempt. -/
def checkCorrectValues (q : Question) : Except ValidationError Unit :=
  if q.type ∈ choiceTypes then
    match findBadCorrect q.correct (optionValues q) with
    | some c => .error (.invalidCorrect q.number c (optionValues q))
    | none => .ok ()
  else .ok ()

/-- The loop of `validate_exam`: for each question in order, first the
duplicate-number check against the numbers seen so far, then the
correct-membership check.  (The Python code adds `q.number` to the seen set
before its correct check; since that check never consults the set, extending
the set at the recursive call is equivalent.) -/
def validateLoop : List Question → List Int → Except ValidationError Unit
  | [], _ => .ok ()
  | q :: rest, seen =>
    if q.number ∈ seen then .error (.dupNumber q.number)
    else
      match checkCorrectValues q with
      | .error e => .error e
      | .ok () => validateLoop rest (q.number :: seen)

/-- Embeds `validate_exam` of `quizcore.py`. -/
def validateExam (exam : Exam) : Except ValidationError Unit :=
  validateLoop exam.questions []

/-- Raw option object of the exam JSON document (`o.get("description")`
makes `description` optional; `value` and `text` are required). -/
structure RawOption where
  value : String
  text : String
  description : Option String := none
deriving DecidableEq

/-- Raw question object of the exam JSON document: fields read with
`q.get(...)` in `load_exam` are optional, the `q[...]` ones are required. -/
structure RawQuestion where
  number : Int
  type : String
  question : String
  options : Option (List RawOption) := none
  correct : List String
  points : Option Int := none
  case_sensitive : Option Bool := none
deriving DecidableEq

/-- Raw exam document as consumed by `load_exam` (after JSON parsing, which
is outside the grading core): `raw.get(...)` fields are optional. -/
structure RawExam where
  id : String
  title : String
  description : Option String := none
  questions : List RawQuestion := []
  shuffle_questions : Option Bool := none
  difficulty : Option String := none
  time_limit_seconds : Option Int := none
  format : Option String := none
  block_previous : Option Bool := none
deriving DecidableEq

/-- One iteration of the question-construction loop of `load_exam`
(lines 83-103 of `quizcore.py`): `q.get("options") or []`,
`points=q.get("points", 1)`, `case_sensitive=q.get("case_sensitive", False)`. -/
def loadQuestion (q : RawQuestion) : Question :=
  { number := q.number
    type := q.type
    question := q.question
    options := (q.options.getD []).map
      (fun o => { value := o.value, text := o.text, description := o.description })
    correct := q.correct
    points := q.points.getD 1
    case_sensitive := q.case_sensitive.getD false }

/-- The `Exam(...)` construction of `load_exam` (lines 105-115). -/
def buildExam (raw : RawExam) : Exam :=
  { id := raw.id
    title := raw.title
    description := raw.description.getD ""
    questions := raw.questions.map loadQuestion
    shuffle_questions := raw.shuffle_questions.getD false
    difficulty := raw.difficulty
    time_limit_seconds := raw.time_limit_seconds
    format := raw.format.getD "multiple"
    block_previous := raw.block_previous.getD false }

/-- Embeds `load_exam` of `quizcore.py`, minus the file/JSON I/O (it takes
the already-parsed document) and with the `random.shuffle` on
`shuffle_questions` modelled as the identity permutation: the shuffle
happens after validation and permutes `questions` in place, so it never
affects acceptance, and the claims below instantiate documents with
`shuffle_questions` absent, where the code performs no shuffle at all.
`if exam.time_limit_seconds and exam.time_limit_seconds < 0` — the Python
truthiness test on the optional int — is the `match`/`t < 0` below (a
present `0` is falsy in Python, but `0 < 0` is false anyway). -/
def loadExam (raw : RawExam) : Except ValidationError Exam :=
  let exam := buildExam raw
  match validateExam exam with
  | .error e => .error e
  | .ok () =>
    match exam.time_limit_seconds with
    | some t => if t < 0 then .error .invalidTimeLimit else .ok exam
    | none => .ok exam

/-- Embeds `grade_exam_by_index` of `quiz_runner.py`: the rows of its
`for idx, q in enumerate(exam.questions)` loop, with
`ua = user_answers_by_index.get(idx, [])` and
`question_number = idx + 1`. -/
def gradeRowsByIndex : List Question → (Nat → Option (List String)) → Nat → List QuestionResult
  | [], _, _ => []
  | q :: rest, a, i =>
      questionRow q ((a i).getD []) ((i : Int) + 1) :: gradeRowsByIndex rest a (i + 1)

/-- Embeds `grade_exam_by_index` of `quiz_runner.py` (its accumulation of
`total_points`, `max_points` and `percentage` is identical to
`grade_exam`'s, i.e. `mkGradeResult`). -/
def gradeExamByIndex (exam : Exam) (user_answers_by_index : Nat → Option (List String)) :
    GradeResult :=
  mkGradeResult (gradeRowsByIndex exam.questions user_answers_by_index 0)

/-! ## C3: max_points is the sum of all questions' points -/

/-- Claim C3: For every exam and every answers mapping, `grade_exam` returns
`max_points` equal to the sum of `points` over all questions of the exam. -/
theorem C3_max_points_sum (exam : Exam) (user_answers : Int → Option (List String)) :
    (gradeExam exam user_answers).max_points = (exam.questions.map (fun q => q.points)).sum := by
  simp only [gradeExam, mkGradeResult, questionRow, List.map_map]
  rfl

/-! ## C5: grading is total -/

/-- Claim C5: Grading is total: a question of unknown type is graded incorrect
(never an error); `grade_exam` treats a question number missing from the
answers mapping exactly as an explicitly empty answer list, and grades every
question of the exam. -/
theorem C5_grading_total (q : Question) (ua : List String)
    (exam : Exam) (user_answers : Int → Option (List String)) :
    (q.type ∉ choiceTypes ∧ q.type ≠ "fill_blank" → checkQuestionAnswer q ua = false) ∧
      gradeExam exam user_answers =
        gradeExam exam (fun n => some ((user_answers n).getD [])) ∧
      (gradeExam exam user_answers).per_question.length = exam.questions.length := by
  refine ⟨?_, ?_, ?_⟩
  · intro ⟨h1, h2⟩
    simp [checkQuestionAnswer, if_neg h1, if_neg h2]
  · simp [gradeExam]
  · simp [gradeExam, mkGradeResult]

/-- Witness objects for C5: a question of unknown type `essay`, and a
one-question exam graded with no answers at all. -/
def C5q : Question :=
  { number := 7, type := "essay", question := "write", options := [], correct := ["x"] }

def C5exam : Exam :=
  { id := "e5", title := "t", description := "", questions := [C5q] }

theorem C5_grading_total_witness :
    (C5q.type ∉ choiceTypes ∧ C5q.type ≠ "fill_blank") ∧
      checkQuestionAnswer C5q ["x"] = false ∧
      gradeExam C5exam (fun _ => none) =
        gradeExam C5exam (fun n => some (((fun _ => none : Int → Option (List String)) n).getD [])) ∧
      (gradeExam C5exam (fun _ => none)).per_question.length = C5exam.questions.length :=
  ⟨by decide,
   (C5_grading_total C5q ["x"] C5exam (fun _ => none)).1 (by decide),
   (C5_grading_total C5q ["x"] C5exam (fun _ => none)).2.1,
   (C5_grading_total C5q ["x"] C5exam (fun _ => none)).2.2⟩

/-! ## C10: grading depends only on the exam's own question numbers -/

/-- Claim C10: The result of `grade_exam` depends only on the answers at keys
that are question numbers of the exam: two answers mappings agreeing there
produce identical `GradeResult`s, so entries under any other key are
silently ignored. -/
theorem C10_irrelevant_keys_ignored (exam : Exam)
    (a₁ a₂ : Int → Option (List String))
    (h : ∀ q ∈ exam.questions, a₁ q.number = a₂ q.number) :
    gradeExam exam a₁ = gradeExam exam a₂ := by
  unfold gradeExam
  congr 1
  exact List.map_congr_left (fun q hq => by rw [h q hq])

/-- Witness objects for C10: a one-question exam and two mappings that agree
on the exam's question number 1 but differ wildly elsewhere. -/
def C10exam : Exam :=
  { id := "e10", title := "t", description := ""
    questions := [{ number := 1, type := "single", question := "q"
                    options := [{ value := "a", text := "A" }], correct := ["a"] }] }

def C10a1 : Int → Option (List String) := fun n => if n = 1 then some ["a"] else none

def C10a2 : Int → Option (List String) :=
  fun n => if n = 1 then some ["a"] else some ["junk", "junk"]

theorem C10_irrelevant_keys_ignored_witness :
    (∀ q ∈ C10exam.questions, C10a1 q.number = C10a2 q.number) ∧
      gradeExam C10exam C10a1 = gradeExam C10exam C10a2 :=
  ⟨by decide, C10_irrelevant_keys_ignored C10exam C10a1 C10a2 (by decide)⟩

/-! ## C4: percentage -/

/-- The accumulated `total_points` of `grade_exam` as a sum over the exam's
questions. -/
lemma gradeExam_total_eq (exam : Exam) (a : Int → Option (List String)) :
    (gradeExam exam a).total_points =
      (exam.questions.map
        (fun q => if checkQuestionAnswer q ((a q.number).getD []) then q.points else 0)).sum := by
  simp only [gradeExam, mkGradeResult, questionRow, List.map_map]
  rfl

/-- The accumulated `max_points` of `grade_exam` as a sum over the exam's
questions. -/
lemma gradeExam_max_eq (exam : Exam) (a : Int → Option (List String)) :
    (gradeExam exam a).max_points = (exam.questions.map (fun q => q.points)).sum := by
  simp only [gradeExam, mkGradeResult, questionRow, List.map_map]
  rfl

/-- The `percentage` field of `grade_exam`'s result, by definition. -/
lemma gradeExam_percentage_eq (exam : Exam) (a : Int → Option (List String)) :
    (gradeExam exam a).percentage =
      if 0 < (gradeExam exam a).max_points then
        ((gradeExam exam a).total_points : ℚ) / ((gradeExam exam a).max_points : ℚ) * 100
      else 0 := rfl

/-- When every question's points are non-negative, the points total of a
graded submission lies between `0` and `max_points`. -/
lemma gradeExam_total_bounds (exam : Exam) (a : Int → Option (List String))
    (h : ∀ q ∈ exam.questions, 0 ≤ q.points) :
    0 ≤ (gradeExam exam a).total_points ∧
      (gradeExam exam a).total_points ≤ (gradeExam exam a).max_points := by
  constructor
  · rw [gradeExam_total_eq]
    apply List.sum_nonneg
    intro x hx
    simp only [List.mem_map] at hx
    obtain ⟨q, hq, rfl⟩ := hx
    by_cases hc : checkQuestionAnswer q ((a q.number).getD []) = true
    · simpa [hc] using h q hq
    · simp [hc]
  · rw [gradeExam_total_eq, gradeExam_max_eq]
    apply List.sum_le_sum
    intro q hq
    by_cases hc : checkQuestionAnswer q ((a q.number).getD []) = true
    · simp [hc]
    · simpa [hc] using h q hq

/-- Claim C4, amended: For every exam all of whose questions carry
non-negative points — the spec's well-formedness assumption on documents,
which the loader itself does not check — and every answers mapping:
`percentage` is `0` when `max_points` is `0`, otherwise equals
`100 * total_points / max_points`, and always lies in `[0, 100]`. -/
theorem C4_percentage_bounds (exam : Exam) (a : Int → Option (List String))
    (h : ∀ q ∈ exam.questions, 0 ≤ q.points) :
    ((gradeExam exam a).max_points = 0 → (gradeExam exam a).percentage = 0) ∧
      ((gradeExam exam a).max_points ≠ 0 →
        (gradeExam exam a).percentage =
          100 * ((gradeExam exam a).total_points : ℚ) / ((gradeExam exam a).max_points : ℚ)) ∧
      0 ≤ (gradeExam exam a).percentage ∧ (gradeExam exam a).percentage ≤ 100 := by
  obtain ⟨ht0, htm⟩ := gradeExam_total_bounds exam a h
  have hm0 : 0 ≤ (gradeExam exam a).max_points := le_trans ht0 htm
  set t := (gradeExam exam a).total_points with hts
  set m := (gradeExam exam a).max_points with hms
  refine ⟨?_, ?_, ?_, ?_⟩
  · intro hz
    rw [gradeExam_percentage_eq, ← hts, ← hms, hz]
    simp
  · intro hnz
    have hpos : 0 < m := lt_of_le_of_ne hm0 (Ne.symm hnz)
    rw [gradeExam_percentage_eq, ← hts, ← hms, if_pos hpos]
    ring
  · rw [gradeExam_percentage_eq, ← hts, ← hms]
    split
    · have h1 : (0 : ℚ) ≤ (t : ℚ) := by exact_mod_cast ht0
      have h2 : (0 : ℚ) ≤ (m : ℚ) := by exact_mod_cast hm0
      positivity
    · exact le_refl 0
  · rw [gradeExam_percentage_eq, ← hts, ← hms]
    split
    · rename_i hpos
      have hmq : (0 : ℚ) < (m : ℚ) := by exact_mod_cast hpos
      have htq : (t : ℚ) ≤ (m : ℚ) := by exact_mod_cast htm
      have hdiv : (t : ℚ) / (m : ℚ) ≤ 1 := (div_le_one hmq).mpr htq
      calc (t : ℚ) / (m : ℚ) * 100 ≤ 1 * 100 := by
            apply mul_le_mul_of_nonneg_right hdiv
            norm_num
        _ = 100 := by norm_num
    · norm_num

/-- Witness exam for C4 (amended): one question worth one point. -/
def C4wExam : Exam :=
  { id := "c4w", title := "t", description := ""
    questions := [{ number := 1, type := "single", question := "q"
                    options := [{ value := "a", text := "A" }], correct := ["a"] }] }

theorem C4_percentage_bounds_witness :
    (∀ q ∈ C4wExam.questions, 0 ≤ q.points) ∧
      (((gradeExam C4wExam (fun _ => none)).max_points = 0 →
          (gradeExam C4wExam (fun _ => none)).percentage = 0) ∧
        ((gradeExam C4wExam (fun _ => none)).max_points ≠ 0 →
          (gradeExam C4wExam (fun _ => none)).percentage =
            100 * ((gradeExam C4wExam (fun _ => none)).total_points : ℚ) /
              ((gradeExam C4wExam (fun _ => none)).max_points : ℚ)) ∧
        0 ≤ (gradeExam C4wExam (fun _ => none)).percentage ∧
          (gradeExam C4wExam (fun _ => none)).percentage ≤ 100) :=
  ⟨by decide, C4_percentage_bounds C4wExam (fun _ => none) (by decide)⟩

/-- A document the loader accepts although one question has negative points:
with it, `grade` can return a negative percentage. -/
def C4doc : RawExam :=
  { id := "c4", title := "t"
    questions :=
      [{ number := 1, type := "single", question := "q1"
         options := some [{ value := "a", text := "A" }], correct := ["a"]
         points := some (-1) },
       { number := 2, type := "single", question := "q2"
         options := some [{ value := "b", text := "B" }], correct := ["b"]
         points := some 2 }] }

/-- The exam the loader produces from `C4doc`. -/
def C4exam : Exam := buildExam C4doc

/-- Answering only the `-1`-point question correctly. -/
def C4answers : Int → Option (List String) := fun n => if n = 1 then some ["a"] else none

/-- Claim C4, counterexample: The loader accepts `C4doc` (negative points are
not rejected), and grading the resulting exam yields a percentage below `0`,
refuting `0 ≤ percentage` for loader-produced exams. -/
theorem C4_percentage_cex :
    loadExam C4doc = Except.ok C4exam ∧ (gradeExam C4exam C4answers).percentage < 0 := by
  have ht : (gradeExam C4exam C4answers).total_points = -1 := by decide
  have hm : (gradeExam C4exam C4answers).max_points = 1 := by decide
  refine ⟨rfl, ?_⟩
  rw [gradeExam_percentage_eq, ht, hm]
  norm_num

/-! ## C6: structural validation -/

/-- Two questions of the exam share a `number`. -/
def hasDuplicateNumbers (exam : Exam) : Prop :=
  ¬ (exam.questions.map (fun q => q.number)).Nodup

instance (exam : Exam) : Decidable (hasDuplicateNumbers exam) :=
  inferInstanceAs (Decidable ¬ _)

/-- Some option-bearing question of the exam has a `correct` value that is
not among its option values. -/
def hasInvalidCorrect (exam : Exam) : Prop :=
  ∃ q ∈ exam.questions, q.type ∈ choiceTypes ∧ ∃ c ∈ q.correct, c ∉ optionValues q

instance (exam : Exam) : Decidable (hasInvalidCorrect exam) :=
  inferInstanceAs (Decidable (∃ q ∈ exam.questions, _ ∧ ∃ c ∈ q.correct, _))

lemma findBadCorrect_none_iff (cs vals : List String) :
    findBadCorrect cs vals = none ↔ ∀ c ∈ cs, c ∈ vals := by
  induction cs with
  | nil => simp [findBadCorrect]
  | cons c rest ih =>
    by_cases h : c ∈ vals
    · simp [findBadCorrect, h, ih]
    · simp [findBadCorrect, h]

lemma findBadCorrect_some (cs vals : List String) (c : String)
    (h : findBadCorrect cs vals = some c) : c ∈ cs ∧ c ∉ vals := by
  induction cs with
  | nil => simp [findBadCorrect] at h
  | cons a rest ih =>
    by_cases ha : a ∈ vals
    · simp only [findBadCorrect, if_pos ha] at h
      obtain ⟨h1, h2⟩ := ih h
      exact ⟨List.mem_cons_of_mem a h1, h2⟩
    · simp only [findBadCorrect, if_neg ha, Option.some.injEq] at h
      subst h
      exact ⟨List.mem_cons_self a rest, ha⟩

lemma checkCorrectValues_ok_iff (q : Question) :
    checkCorrectValues q = .ok () ↔
      ¬ (q.type ∈ choiceTypes ∧ ∃ c ∈ q.correct, c ∉ optionValues q) := by
  unfold checkCorrectValues
  by_cases ht : q.type ∈ choiceTypes
  · rw [if_pos ht]
    cases hf : findBadCorrect q.correct (optionValues q) with
    | none =>
      have hall := (findBadCorrect_none_iff q.correct (optionValues q)).mp hf
      simp only [eq_self_iff_true, true_iff]
      push_neg
      intro _ c hc
      exact hall c hc
    | some c =>
      obtain ⟨hc1, hc2⟩ := findBadCorrect_some q.correct (optionValues q) c hf
      simp only [reduceCtorEq, false_iff]
      push_neg
      exact ⟨ht, c, hc1, hc2⟩
  · rw [if_neg ht]
    simp [ht]

/-- Lemma: `checkCorrectValues` can only fail with `invalidCorrect`, carrying the
question's own number, the first offending `correct` entry, and the
question's option values. -/
lemma checkCorrectValues_error_shape (q : Question) (e : ValidationError)
    (h : checkCorrectValues q = .error e) :
    q.type ∈ choiceTypes ∧ ∃ c ∈ q.correct, c ∉ optionValues q ∧
      e = .invalidCorrect q.number c (optionValues q) := by
  unfold checkCorrectValues at h
  by_cases ht : q.type ∈ choiceTypes
  · rw [if_pos ht] at h
    cases hf : findBadCorrect q.correct (optionValues q) with
    | none => rw [hf] at h; exact absurd h (by simp)
    | some c =>
      rw [hf] at h
      obtain ⟨hc1, hc2⟩ := findBadCorrect_some q.correct (optionValues q) c hf
      refine ⟨ht, c, hc1, hc2, ?_⟩
      simpa using h.symm
  · rw [if_neg ht] at h
    exact absurd h (by simp)

/-- With no duplicate numbers (also w.r.t. the numbers already seen) and
every correct-membership check passing, the validation loop succeeds. -/
lemma validateLoop_ok_of (qs : List Question) (seen : List Int)
    (hnd : (qs.map (fun q => q.number)).Nodup)
    (hdisj : ∀ q ∈ qs, q.number ∉ seen)
    (hok : ∀ q ∈ qs, checkCorrectValues q = .ok ()) :
    validateLoop qs seen = .ok () := by
  induction qs generalizing seen with
  | nil => rfl
  | cons q rest ih =>
    have hq : q.number ∉ seen := hdisj q (List.mem_cons_self q rest)
    rw [List.map_cons, List.nodup_cons] at hnd
    simp only [validateLoop, if_neg hq, hok q (List.mem_cons_self q rest)]
    apply ih
    · exact hnd.2
    · intro p hp
      have hpne : p.number ≠ q.number := by
        intro heq
        exact hnd.1 (heq ▸ List.mem_map_of_mem (fun r => r.number) hp)
      simp only [List.mem_cons, not_or]
      exact ⟨hpne, hdisj p (List.mem_cons_of_mem q hp)⟩
    · intro p hp
      exact hok p (List.mem_cons_of_mem q hp)

/-- A `dupNumber n` failure of the loop is raised at a question whose number
is `n`, so `n` occurs among the questions' numbers. -/
lemma validateLoop_dup_mem (qs : List Question) (seen : List Int) (n : Int)
    (h : validateLoop qs seen = .error (.dupNumber n)) :
    n ∈ qs.map (fun q => q.number) := by
  induction qs generalizing seen with
  | nil => simp [validateLoop] at h
  | cons q rest ih =>
    by_cases hq : q.number ∈ seen
    · simp only [validateLoop, if_pos hq, Except.error.injEq, ValidationError.dupNumber.injEq] at h
      simp [← h]
    · simp only [validateLoop, if_neg hq] at h
      cases hc : checkCorrectValues q with
      | error e =>
        rw [hc] at h
        obtain ⟨_, c, _, _, he⟩ := checkCorrectValues_error_shape q e hc
        simp only [he] at h
        exact absurd h (by simp)
      | ok u =>
        cases u
        rw [hc] at h
        simp only [List.map_cons, List.mem_cons]
        exact Or.inr (ih (q.number :: seen) h)

/-- If every correct-membership check passes but the question numbers
(together with `seen`) are not duplicate-free, the loop fails with
`dupNumber n` for a number `n` either in `seen` or occurring at least twice
among the questions. -/
lemma validateLoop_dup_exists (qs : List Question) (seen : List Int)
    (hok : ∀ q ∈ qs, checkCorrectValues q = .ok ())
    (hbad : ¬ ((qs.map (fun q => q.number)).Nodup ∧ ∀ q ∈ qs, q.number ∉ seen)) :
    ∃ n, validateLoop qs seen = .error (.dupNumber n) ∧
      (n ∈ seen ∨ 2 ≤ (qs.map (fun q => q.number)).count n) := by
  induction qs generalizing seen with
  | nil => exact absurd ⟨List.nodup_nil, by simp⟩ hbad
  | cons q rest ih =>
    by_cases hq : q.number ∈ seen
    · exact ⟨q.number, by simp [validateLoop, hq], Or.inl hq⟩
    · have hstep : validateLoop (q :: rest) seen = validateLoop rest (q.number :: seen) := by
        simp [validateLoop, hq, hok q (List.mem_cons_self q rest)]
      by_cases hrec : (rest.map (fun p => p.number)).Nodup ∧
          ∀ p ∈ rest, p.number ∉ q.number :: seen
      · exfalso
        apply hbad
        refine ⟨?_, ?_⟩
        · rw [List.map_cons, List.nodup_cons]
          refine ⟨?_, hrec.1⟩
          intro hmem
          obtain ⟨p, hp, hpe⟩ := List.mem_map.mp hmem
          have := hrec.2 p hp
          simp [hpe] at this
        · intro p hp
          rcases List.mem_cons.mp hp with rfl | hp'
          · exact hq
          · have := hrec.2 p hp'
            simp only [List.mem_cons, not_or] at this
            exact this.2
      · obtain ⟨n, hn, hcase⟩ :=
          ih (q.number :: seen) (fun p hp => hok p (List.mem_cons_of_mem q hp)) hrec
        refine ⟨n, by rw [hstep]; exact hn, ?_⟩
        rcases hcase with hseen | hcnt
        · rcases List.mem_cons.mp hseen with heq | hseen'
          · subst heq
            have hmem : q.number ∈ rest.map (fun p => p.number) :=
              validateLoop_dup_mem rest (q.number :: seen) q.number hn
            right
            have h1 : 1 ≤ (rest.map (fun p => p.number)).count q.number :=
              List.count_pos_iff.mpr hmem
            simp only [List.map_cons, List.count_cons_self]
            omega
          · exact Or.inl hseen'
        · right
          have hle : (rest.map (fun p => p.number)).count n ≤
              ((q :: rest).map (fun p => p.number)).count n := by
            simp only [List.map_cons, List.count_cons]
            split <;> omega
          omega

/-- With duplicate-free numbers but some failing correct-membership check,
the loop fails with `invalidCorrect` carrying the offending question's
number, value and option values. -/
lemma validateLoop_invalid_exists (qs : List Question) (seen : List Int)
    (hnd : (qs.map (fun q => q.number)).Nodup)
    (hdisj : ∀ q ∈ qs, q.number ∉ seen)
    (hbad : ∃ q ∈ qs, ¬ checkCorrectValues q = .ok ()) :
    ∃ q ∈ qs, q.type ∈ choiceTypes ∧ ∃ c ∈ q.correct, c ∉ optionValues q ∧
      validateLoop qs seen = .error (.invalidCorrect q.number c (optionValues q)) := by
  induction qs generalizing seen with
  | nil => simp at hbad
  | cons q rest ih =>
    have hq : q.number ∉ seen := hdisj q (List.mem_cons_self q rest)
    rw [List.map_cons, List.nodup_cons] at hnd
    cases hc : checkCorrectValues q with
    | error e =>
      obtain ⟨ht, c, hc1, hc2, he⟩ := checkCorrectValues_error_shape q e hc
      refine ⟨q, List.mem_cons_self q rest, ht, c, hc1, hc2, ?_⟩
      simp [validateLoop, if_neg hq, hc, he]
    | ok u =>
      cases u
      have hstep : validateLoop (q :: rest) seen = validateLoop rest (q.number :: seen) := by
        simp [validateLoop, hq, hc]
      obtain ⟨p, hp, hbadp⟩ := hbad
      rcases List.mem_cons.mp hp with rfl | hp'
      · exact absurd hc hbadp
      · obtain ⟨p', hp'', ht', c', hc1', hc2', hres⟩ :=
          ih (q.number :: seen) hnd.2
            (fun r hr => by
              have hrne : r.number ≠ q.number := by
                intro heq
                exact hnd.1 (heq ▸ List.mem_map_of_mem (fun s => s.number) hr)
              simp only [List.mem_cons, not_or]
              exact ⟨hrne, hdisj r (List.mem_cons_of_mem q hr)⟩)
            ⟨p, hp', hbadp⟩
        exact ⟨p', List.mem_cons_of_mem q hp'', ht', c', hc1', hc2', by rw [hstep]; exact hres⟩

/-- Claim C6, amended: Structural validation scans the questions in order,
checking duplicate numbers before correct-membership within each question.
If the exam has duplicate numbers and no invalid correct value, it fails with
`DuplicateQuestionNumber(n)` for a number `n` occurring at least twice; if it
has an invalid correct value and no duplicate numbers, it fails with
`InvalidCorrectValue(question_number, value, known_values)` for an offending
question; when both defects are present the first one encountered in scan
order wins; an exam with neither defect passes. -/
theorem C6_validation_errors (exam : Exam) :
    (hasDuplicateNumbers exam → ¬ hasInvalidCorrect exam →
      ∃ n, validateExam exam = .error (.dupNumber n) ∧
        2 ≤ (exam.questions.map (fun q => q.number)).count n) ∧
      (¬ hasDuplicateNumbers exam → hasInvalidCorrect exam →
        ∃ q ∈ exam.questions, q.type ∈ choiceTypes ∧ ∃ c ∈ q.correct, c ∉ optionValues q ∧
          validateExam exam = .error (.invalidCorrect q.number c (optionValues q))) ∧
      (¬ hasDuplicateNumbers exam → ¬ hasInvalidCorrect exam →
        validateExam exam = .ok ()) := by
  have hok_of : ¬ hasInvalidCorrect exam → ∀ q ∈ exam.questions, checkCorrectValues q = .ok () := by
    intro hni q hq
    rw [checkCorrectValues_ok_iff]
    intro hcontra
    exact hni ⟨q, hq, hcontra⟩
  refine ⟨?_, ?_, ?_⟩
  · intro hdup hni
    obtain ⟨n, hn, hcase⟩ :=
      validateLoop_dup_exists exam.questions [] (hok_of hni)
        (by intro ⟨h1, _⟩; exact hdup h1)
    refine ⟨n, hn, ?_⟩
    rcases hcase with hmem | hcnt
    · simp at hmem
    · exact hcnt
  · intro hnd hinv
    obtain ⟨q, hq, hcontra⟩ := hinv
    apply validateLoop_invalid_exists exam.questions [] (not_not.mp hnd) (by simp)
    refine ⟨q, hq, ?_⟩
    rw [checkCorrectValues_ok_iff]
    push_neg
    exact hcontra
  · intro hnd hni
    exact validateLoop_ok_of exam.questions [] (not_not.mp hnd) (by simp) (hok_of hni)

/-- Witness exam for C6 (amended): duplicate number `1`, all correct values
valid. -/
def C6wExam : Exam :=
  { id := "c6w", title := "t", description := ""
    questions :=
      [{ number := 1, type := "single", question := "q1"
         options := [{ value := "a", text := "A" }], correct := ["a"] },
       { number := 1, type := "single", question := "q2"
         options := [{ value := "b", text := "B" }], correct := ["b"] }] }

theorem C6_validation_errors_witness :
    hasDuplicateNumbers C6wExam ∧ ¬ hasInvalidCorrect C6wExam ∧
      (∃ n, validateExam C6wExam = .error (.dupNumber n) ∧
        2 ≤ (C6wExam.questions.map (fun q => q.number)).count n) :=
  ⟨by decide, by decide,
    (C6_validation_errors C6wExam).1 (by decide) (by decide)⟩

/-- An exam with *both* defects: questions `1` and `1` share a number, and
the first question's correct value `z` is not among its options. -/
def C6exam : Exam :=
  { id := "c6", title := "t", description := ""
    questions :=
      [{ number := 1, type := "single", question := "q1"
         options := [{ value := "a", text := "A" }], correct := ["z"] },
       { number := 1, type := "single", question := "q2"
         options := [{ value := "a", text := "A" }], correct := ["a"] }] }

/-- Claim C6, counterexample: `C6exam` has two questions sharing number `1`,
yet validation fails with `InvalidCorrectValue`, not with
`DuplicateQuestionNumber`, because the first question's correct-membership
defect is encountered before the duplicate: the claim's unconditional
"fails with DuplicateQuestionNumber for every exam with a shared number" is
false. -/
theorem C6_validation_errors_cex :
    C6exam.questions.map (fun q => q.number) = [1, 1] ∧
      validateExam C6exam = .error (.invalidCorrect 1 "z" ["a"]) :=
  ⟨rfl, rfl⟩

/-! ## C7: the loader and question points -/

/-- Whether a load attempt succeeded. -/
def isOk {ε α : Type _} : Except ε α → Bool
  | .ok _ => true
  | .error _ => false

/-- Two questions equal in every field `validate_exam` inspects (everything
except `points`, `question` text and `case_sensitive`). -/
def sameExceptPoints (q q' : Question) : Prop :=
  q.number = q'.number ∧ q.type = q'.type ∧ q.correct = q'.correct ∧ q.options = q'.options

lemma checkCorrectValues_congr (q q' : Question) (h : sameExceptPoints q q') :
    checkCorrectValues q = checkCorrectValues q' := by
  obtain ⟨h1, h2, h3, h4⟩ := h
  unfold checkCorrectValues optionValues
  rw [h1, h2, h3, h4]

lemma validateLoop_congr (qs qs' : List Question) (seen : List Int)
    (h : List.Forall₂ sameExceptPoints qs qs') :
    validateLoop qs seen = validateLoop qs' seen := by
  induction h generalizing seen with
  | nil => rfl
  | @cons a b la lb hab _ ih =>
    simp only [validateLoop]
    rw [hab.1, checkCorrectValues_congr a b hab]
    by_cases hm : b.number ∈ seen
    · simp [hm]
    · simp only [if_neg hm]
      cases checkCorrectValues b with
      | error e => rfl
      | ok u => cases u; exact ih (b.number :: seen)

lemma forall₂_of_maps {α : Type _} (g₁ g₂ : α → Question)
    (h : ∀ x, sameExceptPoints (g₁ x) (g₂ x)) :
    ∀ l : List α, List.Forall₂ sameExceptPoints (l.map g₁) (l.map g₂) := by
  intro l
  induction l with
  | nil => exact List.Forall₂.nil
  | cons x xs ih => exact List.Forall₂.cons (h x) ih

/-- Replaces each raw question's `points` entry through `f` (e.g. making
points negative), leaving every other field of the document untouched. -/
def mapRawPoints (f : Option Int → Option Int) (raw : RawExam) : RawExam :=
  { raw with questions := raw.questions.map (fun q => { q with points := f q.points }) }

/-- Claim C7, amended: The loader performs no check on `points` at all:
whether `load_exam` accepts a document is unchanged under arbitrarily
rewriting every question's `points` entry, so `points ≥ 0` is an unchecked
assumption on input documents, not a load-time guarantee. -/
theorem C7_points_unchecked (raw : RawExam) (f : Option Int → Option Int) :
    isOk (loadExam (mapRawPoints f raw)) = isOk (loadExam raw) := by
  have hq : List.Forall₂ sameExceptPoints
      ((mapRawPoints f raw).questions.map loadQuestion) (raw.questions.map loadQuestion) := by
    show List.Forall₂ sameExceptPoints
      ((raw.questions.map (fun q => { q with points := f q.points })).map loadQuestion) _
    rw [List.map_map]
    have hone : ∀ q : RawQuestion,
        sameExceptPoints (loadQuestion { q with points := f q.points }) (loadQuestion q) :=
      fun q => ⟨rfl, rfl, rfl, rfl⟩
    exact forall₂_of_maps (fun q => loadQuestion { q with points := f q.points })
      loadQuestion hone raw.questions
  have hval : validateExam (buildExam (mapRawPoints f raw)) = validateExam (buildExam raw) := by
    unfold validateExam buildExam
    exact validateLoop_congr _ _ [] hq
  simp only [loadExam]
  rw [hval]
  cases hv : validateExam (buildExam raw) with
  | error e => rfl
  | ok u =>
    cases u
    have h2 : (buildExam (mapRawPoints f raw)).time_limit_seconds = raw.time_limit_seconds := rfl
    have h3 : (buildExam raw).time_limit_seconds = raw.time_limit_seconds := rfl
    simp only [h2, h3]
    cases raw.time_limit_seconds with
    | none => rfl
    | some t =>
      by_cases htneg : t < 0
      · simp [htneg, isOk]
      · simp [htneg, isOk]

/-- A document with a single question of `points = -1`. -/
def C7doc : RawExam :=
  { id := "c7", title := "t"
    questions := [{ number := 1, type := "single", question := "q"
                    options := some [{ value := "a", text := "A" }], correct := ["a"]
                    points := some (-1) }] }

/-- The exam the loader produces from `C7doc`. -/
def C7exam : Exam := buildExam C7doc

/-- Claim C7, counterexample: Loading a document with a negative-points
question succeeds and returns an exam containing that question, refuting
"loading a document that contains a question with negative points fails". -/
theorem C7_negative_points_cex :
    loadExam C7doc = Except.ok C7exam ∧ ∃ q ∈ C7exam.questions, q.points < 0 := by
  refine ⟨rfl, ?_⟩
  decide

/-! ## C8: grading by index vs grading by number -/

/-- Index of the first question with the given `number`. -/
def findQuestionIdx : List Question → Int → Option Nat
  | [], _ => none
  | q :: rest, n =>
    if q.number = n then some 0 else (findQuestionIdx rest n).map (fun i => i + 1)

/-- Re-keys a position-keyed answers mapping by each question's intrinsic
`number`: the answer for number `n` is the answer stored at the position of
the question carrying `n`. -/
def reKeyByNumber (exam : Exam) (a : Nat → Option (List String)) : Int → Option (List String) :=
  fun n => (findQuestionIdx exam.questions n).bind a

/-- Rewrites the `question_number` fields of a result list to consecutive
positions starting at `k`. -/
def renumberRows : List QuestionResult → Int → List QuestionResult
  | [], _ => []
  | r :: rest, k => { r with question_number := k } :: renumberRows rest (k + 1)

/-- The same `GradeResult` with each row's `question_number` replaced by the
row's 1-based position. -/
def renumberByPosition (r : GradeResult) : GradeResult :=
  { r with per_question := renumberRows r.per_question 1 }

lemma renumberRows_map_gained (rows : List QuestionResult) (k : Int) :
    (renumberRows rows k).map (fun r => r.gained_points) =
      rows.map (fun r => r.gained_points) := by
  induction rows generalizing k with
  | nil => rfl
  | cons r rest ih => simp [renumberRows, ih]

lemma renumberRows_map_max (rows : List QuestionResult) (k : Int) :
    (renumberRows rows k).map (fun r => r.max_points) =
      rows.map (fun r => r.max_points) := by
  induction rows generalizing k with
  | nil => rfl
  | cons r rest ih => simp [renumberRows, ih]

lemma mkGradeResult_renumber (rows : List QuestionResult) :
    mkGradeResult (renumberRows rows 1) = renumberByPosition (mkGradeResult rows) := by
  unfold mkGradeResult renumberByPosition
  simp only [renumberRows_map_gained, renumberRows_map_max]

/-- With no duplicate question numbers, looking up a question's number finds
exactly its position. -/
lemma findQuestionIdx_of_nodup (qs : List Question)
    (hnd : (qs.map (fun q => q.number)).Nodup) :
    ∀ (j : Nat) (q : Question), qs[j]? = some q → findQuestionIdx qs q.number = some j := by
  induction qs with
  | nil => intro j q h; simp at h
  | cons p rest ih =>
    rw [List.map_cons, List.nodup_cons] at hnd
    intro j q h
    cases j with
    | zero =>
      simp only [List.getElem?_cons_zero, Option.some.injEq] at h
      subst h
      simp [findQuestionIdx]
    | succ j' =>
      simp only [List.getElem?_cons_succ] at h
      have hqmem : q ∈ rest := by
        have := List.getElem?_eq_some_iff.mp h
        obtain ⟨hlt, hget⟩ := this
        exact hget ▸ List.getElem_mem hlt
      have hne : p.number ≠ q.number := fun heq =>
        hnd.1 (heq ▸ List.mem_map_of_mem (fun r => r.number) hqmem)
      simp [findQuestionIdx, hne, ih hnd.2 j' q h]

/-- Core correspondence: the indexed grading rows starting at position `i`
are the number-keyed rows renumbered from `i + 1`, provided the number-keyed
mapping agrees with the index-keyed one at every question's position. -/
lemma gradeRowsByIndex_eq_renumber (qs : List Question)
    (a : Nat → Option (List String)) (b : Int → Option (List String)) (i : Nat)
    (hagree : ∀ (j : Nat) (q : Question), qs[j]? = some q → b q.number = a (i + j)) :
    gradeRowsByIndex qs a i =
      renumberRows (qs.map (fun q => questionRow q ((b q.number).getD []) q.number))
        ((i : Int) + 1) := by
  induction qs generalizing i with
  | nil => rfl
  | cons q rest ih =>
    simp only [gradeRowsByIndex, List.map_cons, renumberRows]
    have hhead : b q.number = a i := by
      simpa using hagree 0 q (by simp)
    have hagree' : ∀ (j : Nat) (p : Question), rest[j]? = some p →
        b p.number = a ((i + 1) + j) := by
      intro j p hp
      have hj := hagree (j + 1) p (by simpa using hp)
      rw [hj]
      congr 1
      omega
    have htail := ih (i + 1) hagree'
    have hcast : ((i + 1 : Nat) : Int) + 1 = ((i : Int) + 1) + 1 := by
      push_cast
      ring
    rw [hhead, htail, hcast]
    rfl

/-- Claim C8: For every exam with pairwise-distinct question numbers (the
validated-exam invariant, required for re-keying by number to be
well-defined) and every position-keyed answers mapping,
`grade_exam_by_index` returns exactly what `grade_exam` returns on the same
answers re-keyed by question number, except that each row's
`question_number` holds the 1-based position instead of the intrinsic
number. -/
theorem C8_grade_by_index_equiv (exam : Exam) (a : Nat → Option (List String))
    (h : (exam.questions.map (fun q => q.number)).Nodup) :
    gradeExamByIndex exam a =
      renumberByPosition (gradeExam exam (reKeyByNumber exam a)) := by
  have hagree : ∀ (j : Nat) (q : Question), exam.questions[j]? = some q →
      reKeyByNumber exam a q.number = a (0 + j) := by
    intro j q hj
    unfold reKeyByNumber
    rw [findQuestionIdx_of_nodup exam.questions h j q hj]
    simp
  have hrows := gradeRowsByIndex_eq_renumber exam.questions a (reKeyByNumber exam a) 0 hagree
  unfold gradeExamByIndex gradeExam
  rw [hrows]
  norm_num
  exact mkGradeResult_renumber _

/-- Witness exam for C8: two questions with distinct intrinsic numbers 10
and 20, the first answered (by position). -/
def C8exam : Exam :=
  { id := "c8", title := "t", description := ""
    questions :=
      [{ number := 10, type := "single", question := "q1"
         options := [{ value := "a", text := "A" }], correct := ["a"] },
       { number := 20, type := "single", question := "q2"
         options := [{ value := "b", text := "B" }], correct := ["b"] }] }

def C8answers : Nat → Option (List String) := fun i => if i = 0 then some ["a"] else none

theorem C8_grade_by_index_equiv_witness :
    (C8exam.questions.map (fun q => q.number)).Nodup ∧
      gradeExamByIndex C8exam C8answers =
        renumberByPosition (gradeExam C8exam (reKeyByNumber C8exam C8answers)) :=
  ⟨by decide, C8_grade_by_index_equiv C8exam C8answers (by decide)⟩

end SmartQuiz
